import Mathlib

/-!
Verification development for the `hdfscm` HDFS contents-manager
(`src/hdfscm/hdfsmanager.py`).

Paths are modelled as lists of path segments (`List String`); the joined
string form used by Python (`"a/b/c"`) is recovered with `apiStr`.
Bytes are modelled as natural numbers below 256 (`List Nat`).
Raised Python exceptions are modelled with `Except`: `MgrError.http s m`
is a raised tornado `HTTPError(s, m)` and `MgrError.backend m` is any
other (uncaught) backend exception propagating out of the manager.

The helper modules `hdfscm.utils` and `hdfscm.checkpoints` are not part
of the sources; the functions taken from them are modelled from the
spec and are marked `Modelled from the spec:` in their doc comments.
-/

/-- Render a segment path the way the Python code renders an API path
in error messages. -/
def apiStr (p : List String) : String := String.intercalate "/" p

/-- Model of Python `str.startswith` (kept kernel-computable by
working on character lists). -/
def strStartsWith (s pre : String) : Bool := pre.data.isPrefixOf s.data

/-- Model of Python `str.endswith` (kept kernel-computable by working
on character lists). -/
def strEndsWith (s suf : String) : Bool := suf.data.isSuffixOf s.data

/-! ### UTF-8 codec

Models Python `str.encode('utf8')` and `bytes.decode('utf8')` (strict
UTF-8: continuation ranges, no overlong forms, no surrogates, max
U+10FFFF). -/

/-- UTF-8 encoding of a single code point (Lean `Char` carries only
valid scalar values, so this is total, as is Python's `str.encode`). -/
def encodeChar (c : Char) : List Nat :=
  let n := c.toNat
  if n < 0x80 then [n]
  else if n < 0x800 then [0xC0 + n / 64, 0x80 + n % 64]
  else if n < 0x10000 then
    [0xE0 + n / 4096, 0x80 + (n / 64) % 64, 0x80 + n % 64]
  else
    [0xF0 + n / 262144, 0x80 + (n / 4096) % 64, 0x80 + (n / 64) % 64,
     0x80 + n % 64]

/-- Model of Python `str.encode('utf8')`. -/
def utf8Encode (s : String) : List Nat := (s.data.map encodeChar).flatten

/-- Is `b` a UTF-8 continuation byte? -/
def isCont (b : Nat) : Bool := 0x80 ≤ b && b ≤ 0xBF

/-- Strict UTF-8 decoder on byte lists; `none` models a raised
`UnicodeError`. -/
def utf8DecodeAux : List Nat → Option (List Char)
  | [] => some []
  | b :: rest =>
    if b < 0x80 then
      (utf8DecodeAux rest).map (fun cs => Char.ofNat b :: cs)
    else if 0xC2 ≤ b && b ≤ 0xDF then
      match rest with
      | b1 :: r =>
        if isCont b1 then
          (utf8DecodeAux r).map
            (fun cs => Char.ofNat ((b - 0xC0) * 64 + (b1 - 0x80)) :: cs)
        else none
      | _ => none
    else if 0xE0 ≤ b && b ≤ 0xEF then
      match rest with
      | b1 :: b2 :: r =>
        let okB1 :=
          if b = 0xE0 then 0xA0 ≤ b1 && b1 ≤ 0xBF
          else if b = 0xED then 0x80 ≤ b1 && b1 ≤ 0x9F
          else isCont b1
        if okB1 && isCont b2 then
          (utf8DecodeAux r).map
            (fun cs => Char.ofNat
              ((b - 0xE0) * 4096 + (b1 - 0x80) * 64 + (b2 - 0x80)) :: cs)
        else none
      | _ => none
    else if 0xF0 ≤ b && b ≤ 0xF4 then
      match rest with
      | b1 :: b2 :: b3 :: r =>
        let okB1 :=
          if b = 0xF0 then 0x90 ≤ b1 && b1 ≤ 0xBF
          else if b = 0xF4 then 0x80 ≤ b1 && b1 ≤ 0x8F
          else isCont b1
        if okB1 && isCont b2 && isCont b3 then
          (utf8DecodeAux r).map
            (fun cs => Char.ofNat
              ((b - 0xF0) * 262144 + (b1 - 0x80) * 4096 +
               (b2 - 0x80) * 64 + (b3 - 0x80)) :: cs)
        else none
      | _ => none
    else none

/-- Model of Python `bytes.decode('utf8')`; `none` models
`UnicodeError`. -/
def utf8Decode (bs : List Nat) : Option String :=
  (utf8DecodeAux bs).map (fun cs => String.mk cs)

/-! ### Base64 codec

Models `base64.encodebytes` (76-character lines, each terminated by a
newline) and `base64.decodebytes` (non-strict `binascii.a2b_base64`:
non-alphabet characters are skipped, `=` closes a quad once at least
two data characters have accumulated, and leftover data characters at
end of input raise `binascii.Error`). -/

def b64Alphabet : List Char :=
  "ABCDEFGHIJKLMNOPQRSTUVWXYZabcdefghijklmnopqrstuvwxyz0123456789+/".data

def b64Char (n : Nat) : Char := b64Alphabet.getD n '?'

/-- Encode full and trailing groups of up to three bytes. -/
def b64EncodeGroups : List Nat → List Char
  | [] => []
  | [a] => [b64Char (a / 4), b64Char ((a % 4) * 16), '=', '=']
  | [a, b] =>
    [b64Char (a / 4), b64Char ((a % 4) * 16 + b / 16),
     b64Char ((b % 16) * 4), '=']
  | a :: b :: c :: r =>
    b64Char (a / 4) :: b64Char ((a % 4) * 16 + b / 16) ::
    b64Char ((b % 16) * 4 + c / 64) :: b64Char (c % 64) ::
    b64EncodeGroups r

/-- `base64.encodebytes`: encode 57-byte chunks, one per line.  The
`fuel` argument only drives structural recursion; every chunk removes
at least one byte, so `fuel = bs.length` never runs out. -/
def encodebytesAux : Nat → List Nat → List Char
  | _, [] => []
  | 0, _ => []
  | fuel + 1, bs =>
    b64EncodeGroups (bs.take 57) ++ '\n' ::
      encodebytesAux fuel (bs.drop 57)

/-- Model of `base64.encodebytes(b).decode('ascii')`. -/
def encodebytes (bs : List Nat) : String :=
  String.mk (encodebytesAux bs.length bs)

/-- Value of a base64 alphabet character, `none` for non-alphabet
characters (which `decodebytes` skips). -/
def b64Val (c : Char) : Option Nat := b64Alphabet.findIdx? (fun d => d = c)

/-- Emit the bytes of a completed (possibly padded) quad of base64
values. -/
def b64DecodeQuad : List Nat → List Nat
  | [a, b] => [a * 4 + b / 16]
  | [a, b, c] => [a * 4 + b / 16, (b % 16) * 16 + c / 4]
  | [a, b, c, d] => [a * 4 + b / 16, (b % 16) * 16 + c / 4, (c % 4) * 64 + d]
  | _ => []

/-- Scanner for `binascii.a2b_base64` in non-strict mode. -/
def b64DecodeGo : List Char → List Nat → List Nat → Option (List Nat)
  | [], quad, acc => if quad.isEmpty then some acc else none
  | ch :: r, quad, acc =>
    if ch = '=' then
      if 2 ≤ quad.length then b64DecodeGo r [] (acc ++ b64DecodeQuad quad)
      else b64DecodeGo r quad acc
    else
      match b64Val ch with
      | some v =>
        let q := quad ++ [v]
        if q.length = 4 then b64DecodeGo r [] (acc ++ b64DecodeQuad q)
        else b64DecodeGo r q acc
      | none => b64DecodeGo r quad acc

/-- Model of `base64.decodebytes`; `none` models a raised
`binascii.Error` (incorrect padding / leftover data characters). -/
def decodebytes (s : String) : Option (List Nat) := b64DecodeGo s.data [] []

/-- Model of Python `str.encode('ascii')` success: every character is
an ASCII code point. -/
def allAscii (s : String) : Bool := s.data.all (fun c => c.toNat < 128)

/-! ### Backend filesystem model (`pyarrow.fs.HadoopFileSystem`) -/

/-- `pyarrow.fs.FileType` (only the variants the manager consumes). -/
inductive FsType where
  | File
  | Directory
  | NotFound
deriving DecidableEq, Repr

/-- Python `str()` of a `pyarrow.fs.FileType` value, as interpolated
into `HTTPError` messages. -/
def fsTypeStr : FsType → String
  | .File => "FileType.File"
  | .Directory => "FileType.Directory"
  | .NotFound => "FileType.NotFound"

/-- A node of the backing filesystem: a file with raw byte content, or
a directory.  Each carries its modification timestamp. -/
inductive FsNode where
  | file (content : List Nat) (mtime : Nat)
  | dir (mtime : Nat)
deriving DecidableEq, Repr

/-- The backing HDFS state: an association list from physical segment
paths to nodes, plus the set of physical paths on which any backend
I/O raises a permission error (the error `perm_to_403` translates). -/
structure FileSystem where
  entries : List (List String × FsNode)
  permDenied : List (List String)
deriving DecidableEq, Repr

/-- `pyarrow.fs.FileInfo`: path, type, size (`None` for directories
and missing entries), modification time. -/
structure FileInfo where
  path : List String
  type : FsType
  size : Option Nat
  mtime : Nat
deriving DecidableEq, Repr

def lookupFs (fs : FileSystem) (q : List String) : Option FsNode :=
  fs.entries.lookup q

namespace Hdfs

/-- `fs.get_file_info(path)` on a single path. -/
def get_file_info (fs : FileSystem) (q : List String) : FileInfo :=
  match lookupFs fs q with
  | some (.file c m) => ⟨q, .File, some c.length, m⟩
  | some (.dir m) => ⟨q, .Directory, none, m⟩
  | none => ⟨q, .NotFound, none, 0⟩

/-- `fs.get_file_info(FileSelector(path))`: infos of the immediate
children of `q`. -/
def list_children (fs : FileSystem) (q : List String) : List FileInfo :=
  (fs.entries.filter
      (fun e => e.1.length = q.length + 1 && q.isPrefixOf e.1)).map
    (fun e => get_file_info fs e.1)

/-- All nonempty prefixes of a segment path (`/u`, `/u/a`, ...). -/
def ancestorChain (q : List String) : List (List String) :=
  (List.range q.length).map (fun i => q.take (i + 1))

def isFileAt (fs : FileSystem) (q : List String) : Bool :=
  match lookupFs fs q with
  | some (.file _ _) => true
  | _ => false

def isDirAt (fs : FileSystem) (q : List String) : Bool :=
  match lookupFs fs q with
  | some (.dir _) => true
  | _ => false

/-- `fs.create_dir(path)` (recursive, as pyarrow defaults): silently
succeeds when the directory already exists, creates missing ancestors,
and raises a backend error when a file occupies the path or one of its
ancestors. -/
def create_dir (fs : FileSystem) (q : List String) (now : Nat) :
    Except String FileSystem :=
  if (ancestorChain q).any (fun r => isFileAt fs r) then
    .error "mkdir: a file occupies the path or an ancestor"
  else
    .ok { fs with
          entries :=
            (ancestorChain q).foldl
              (fun es r =>
                if (es.lookup r).isSome then es else (r, .dir now) :: es)
              fs.entries }

/-- Can `open_output_stream(q)` + write succeed?  Fails when a
directory occupies `q` or a file occupies a proper ancestor. -/
def canWrite (fs : FileSystem) (q : List String) : Bool :=
  !isDirAt fs q &&
    ((ancestorChain q).dropLast.all (fun r => !isFileAt fs r))

/-- State after a successful stream write: missing ancestor
directories are created (HDFS `create` semantics) and the file is
replaced wholesale. -/
def doWrite (fs : FileSystem) (q : List String) (bytes : List Nat)
    (now : Nat) : FileSystem :=
  { fs with
    entries :=
      (q, .file bytes now) ::
        ((ancestorChain q).dropLast.foldl
            (fun es r =>
              if (es.lookup r).isSome then es else (r, .dir now) :: es)
            (fs.entries.filter (fun e => e.1 ≠ q))) }

/-- `fs.open_output_stream(path)` followed by a full write. -/
def write_stream (fs : FileSystem) (q : List String) (bytes : List Nat)
    (now : Nat) : Except String FileSystem :=
  if canWrite fs q then .ok (doWrite fs q bytes now)
  else .error "open_output_stream: not writable at this path"

/-- `fs.delete_dir(path)`: removes the directory and everything under
it. -/
def delete_dir (fs : FileSystem) (q : List String) : FileSystem :=
  { fs with entries := fs.entries.filter (fun e => !q.isPrefixOf e.1) }

/-- `fs.delete_file(path)`. -/
def delete_file (fs : FileSystem) (q : List String) : FileSystem :=
  { fs with entries := fs.entries.filter (fun e => e.1 ≠ q) }

/-- `fs.move(src, dst)`: fails when the source is missing or the
destination is occupied; otherwise re-keys the whole subtree. -/
def move (fs : FileSystem) (src dst : List String) :
    Except String FileSystem :=
  if (lookupFs fs src).isNone then .error "move: source does not exist"
  else if (lookupFs fs dst).isSome then .error "move: destination exists"
  else
    .ok { fs with
          entries :=
            fs.entries.map
              (fun e =>
                if src.isPrefixOf e.1 then
                  (dst ++ e.1.drop src.length, e.2)
                else e) }

end Hdfs

/-! ### Manager configuration and spec-modelled path utilities -/

/-- Configuration surface consumed by the manager: the two physical
roots, the hidden-entry policy, the base class's listing-policy
predicate (`ContentsManager.should_list`, an external collaborator),
and the checkpoint collaborator's reserved child name
(`checkpoints.checkpoint_dir`; `none` models a missing attribute). -/
structure Config where
  rootDir : List String
  sharedDir : List String
  allowHidden : Bool
  shouldList : String → Bool
  checkpointDir : Option String

/-- Modelled from the spec: the reserved shared-namespace marker
segment of a logical path (`/shared/...`). -/
def sharedMarker : String := "shared"

/-- Modelled from the spec (`hdfscm.utils.get_prefix_from_fs_path` is
not in the sources): select the physical root for a logical path by a
prefix test against the shared-namespace marker segment. -/
def get_prefix_from_fs_path (p root shared : List String) : List String :=
  if p.head? = some sharedMarker then shared else root

/-- Modelled from the spec (`hdfscm.utils.to_fs_path` is not in the
sources): concatenate the selected root directory with the logical
path. -/
def to_fs_path (p pre : List String) : List String := pre ++ p

/-- Modelled from the spec (`hdfscm.utils.get_prefix_from_hdfs_path`
is not in the sources): the configured root directory whose prefix
matches the physical path (the roots are configured disjoint and
non-nested). -/
def get_prefix_from_hdfs_path (q root shared : List String) :
    List String :=
  if shared.isPrefixOf q then shared else root

/-- Modelled from the spec (`hdfscm.utils.to_api_path` is not in the
sources): strip the matching root directory from a physical path. -/
def to_api_path (q pre : List String) : List String :=
  if pre.isPrefixOf q then q.drop pre.length else q

/-- Modelled from the spec (`hdfscm.utils.is_hidden` is not in the
sources): a physical path is hidden when any segment of its
root-relative remainder begins with the `.` marker. -/
def is_hidden_util (q pre : List String) : Bool :=
  (if pre.isPrefixOf q then q.drop pre.length else q).any
    (fun seg => strStartsWith seg ".")

/-- The physical path of a logical path, exactly as every manager
method computes it:
`to_fs_path(path, get_prefix_from_fs_path(path, root_dir, shared_dir))`. -/
def resolve (cfg : Config) (p : List String) : List String :=
  to_fs_path p (get_prefix_from_fs_path p cfg.rootDir cfg.sharedDir)

/-- The hidden test exactly as the manager performs it on a physical
path: `is_hidden(q, get_prefix_from_hdfs_path(q, root, shared))`. -/
def hiddenAt (cfg : Config) (q : List String) : Bool :=
  is_hidden_util q (get_prefix_from_hdfs_path q cfg.rootDir cfg.sharedDir)

/-- The logical path of a physical path exactly as `_model_from_info`
computes it:
`to_api_path(q, get_prefix_from_hdfs_path(q, root, shared))`. -/
def apiPathOf (cfg : Config) (q : List String) : List String :=
  to_api_path q (get_prefix_from_hdfs_path q cfg.rootDir cfg.sharedDir)

/-- A fragment of the Python `mimetypes.guess_type` table, sufficient
for the extensions exercised here (`.ipynb` is absent from the stdlib
table and yields `None`). -/
def guessMimetype (p : List String) : Option String :=
  let n := p.getLastD ""
  if strEndsWith n ".txt" then some "text/plain"
  else if strEndsWith n ".json" then some "application/json"
  else if strEndsWith n ".py" then some "text/x-python"
  else if strEndsWith n ".html" then some "text/html"
  else none

/-! ### Content models -/

/-- The content-bearing part of a caller-facing model dict.  Directory
children are the dicts built by `_model_from_info`, whose `content`
and `format` keys are always `None`; those two constant keys are
elided from `InfoModel`. -/
structure InfoModel where
  name : String
  path : List String
  last_modified : Nat
  created : Nat
  type : String
  size : Option Nat
  mimetype : Option String
  writable : Bool
deriving DecidableEq, Repr

/-- The `content` value of a full model: absent, file text, directory
listing, or a notebook document.  The notebook document format is an
external collaborator and is carried as an opaque string. -/
inductive ModelContent where
  | nothing
  | text (s : String)
  | listing (l : List InfoModel)
  | doc (s : String)
deriving DecidableEq, Repr

/-- A caller-facing content model. -/
structure Model where
  info : InfoModel
  content : ModelContent
  format : Option String
  message : Option String
deriving DecidableEq, Repr

/-- The `format` entry of a model dict passed to `save`.  Unlike the
keys the source tests with `in`, `_save_file` reads it by plain
indexing (`model['format']`), so an absent key is observable: it
raises `KeyError`.  A present key holds either JSON null (Python
`None`) or a string. -/
inductive FormatField where
  | absent
  | null
  | fmt (s : String)
deriving DecidableEq, Repr

/-- A model passed *to* `save`: `none` in the `type`/`content`/
`message` fields models an absent dict key (the source only ever tests
these with `in`/`.get`); `format` keeps the full absent/null/string
distinction.  Notebook content is opaque to this layer and is carried
as a string. -/
structure InModel where
  type : Option String
  content : Option String
  format : FormatField
  message : Option String
deriving DecidableEq, Repr

/-- A raised exception escaping a manager method: `http` is a tornado
`HTTPError(status, msg)`; `backend` is any other uncaught Python
exception (from the backend client or the manager code itself)
propagating out of the manager, surfaced as a 500 at the boundary. -/
inductive MgrError where
  | http (status : Nat) (msg : String)
  | backend (msg : String)
deriving DecidableEq, Repr

namespace HCM

/-- `HDFSContentsManager.path_exist`. -/
def path_exist (fs : FileSystem) (q : List String) : Bool :=
  (Hdfs.get_file_info fs q).type != FsType.NotFound

/-- `HDFSContentsManager.is_file`. -/
def is_file (fs : FileSystem) (q : List String) : Bool :=
  (Hdfs.get_file_info fs q).type == FsType.File

/-- `HDFSContentsManager.is_dir`. -/
def is_dir (fs : FileSystem) (q : List String) : Bool :=
  (Hdfs.get_file_info fs q).type == FsType.Directory

/-- `HDFSContentsManager.exists` (named `existsApi` because `exists`
collides with a Lean tactic name): converts its argument as an API
path and tests existence. -/
def existsApi (cfg : Config) (fs : FileSystem) (p : List String) : Bool :=
  path_exist fs (resolve cfg p)

/-- `HDFSContentsManager.infer_type` (applied, as in `get`, to the
*physical* path).  Note the `.ipynb` suffix is tested before the
directory test. -/
def infer_type (fs : FileSystem) (q : List String) : String :=
  if strEndsWith (q.getLastD "") ".ipynb" then "notebook"
  else if is_dir fs q then "directory"
  else "file"

/-- `HDFSContentsManager._info_and_check_kind`. -/
def info_and_check_kind (fs : FileSystem) (p q : List String)
    (kind : FsType) : Except MgrError FileInfo :=
  let info := Hdfs.get_file_info fs q
  if info.type = FsType.NotFound then
    .error (.http 404 (fsTypeStr kind ++ " does not exist: " ++ apiStr p))
  else if info.type ≠ kind then
    .error (.http 400 (apiStr p ++ " is not a " ++ fsTypeStr kind))
  else .ok info

/-- `HDFSContentsManager._model_from_info`. -/
def model_from_info (cfg : Config) (info : FileInfo)
    (type : Option String) : InfoModel :=
  let path := apiPathOf cfg info.path
  let name := path.getLastD ""
  let ty :=
    match type with
    | some t => t
    | none =>
      if info.type = FsType.Directory then "directory"
      else if strEndsWith (path.getLastD "") ".ipynb" then "notebook"
      else "file"
  { name := name
    path := path
    last_modified := info.mtime
    created := info.mtime
    type := ty
    size := if ty = "directory" then none else info.size
    mimetype := if ty = "file" then guessMimetype path else none
    writable := true }

/-- Modelled from the spec (`hdfscm.utils.perm_to_403` is not in the
sources): a backend permission failure on this path inside the scoped
wrapper is raised as `HTTPError(403)`. -/
def permCheck (fs : FileSystem) (p q : List String) : Option MgrError :=
  if q ∈ fs.permDenied then
    some (.http 403 ("Permission denied: " ++ apiStr p))
  else none

/-- `HDFSContentsManager._dir_model`. -/
def dir_model (cfg : Config) (fs : FileSystem) (p q : List String)
    (content : Bool) : Except MgrError Model :=
  match info_and_check_kind fs p q FsType.Directory with
  | .error e => .error e
  | .ok info =>
    let m := model_from_info cfg info (some "directory")
    if content then
      match permCheck fs p q with
      | some e => .error e
      | none =>
        let records := Hdfs.list_children fs q
        let contents := records.map (fun i => model_from_info cfg i none)
        let kept := contents.filter
          (fun c => cfg.shouldList c.name && !strStartsWith c.name ".")
        .ok ⟨m, .listing kept, some "json", none⟩
    else .ok ⟨m, .nothing, none, none⟩

/-- `HDFSContentsManager._read_file`. -/
def read_file (fs : FileSystem) (p q : List String)
    (format : Option String) : Except MgrError (String × String) :=
  if !is_file fs q then
    .error (.http 400 ("Cannot read non-file " ++ apiStr p))
  else
    match permCheck fs p q with
    | some e => .error e
    | none =>
      match lookupFs fs q with
      | some (.file bcontent _) =>
        if format = none then
          match utf8Decode bcontent with
          | some s => .ok (s, "text")
          | none => .ok (encodebytes bcontent, "base64")
        else if format = some "text" then
          match utf8Decode bcontent with
          | some s => .ok (s, "text")
          | none =>
            .error (.http 400 (apiStr p ++ " is not UTF-8 encoded"))
        else .ok (encodebytes bcontent, "base64")
      | _ => .error (.backend "unreachable: file vanished")

/-- `HDFSContentsManager._file_model`. -/
def file_model (cfg : Config) (fs : FileSystem) (p q : List String)
    (content : Bool) (format : Option String) : Except MgrError Model :=
  match info_and_check_kind fs p q FsType.File with
  | .error e => .error e
  | .ok info =>
    let m := model_from_info cfg info (some "file")
    if content then
      match read_file fs p q format with
      | .error e => .error e
      | .ok (c, f) =>
        let mt :=
          match m.mimetype with
          | some mt => some mt
          | none =>
            if f = "text" then some "text/plain"
            else some "application/octet-stream"
        .ok ⟨{ m with mimetype := mt }, .text c, some f, none⟩
    else .ok ⟨m, .nothing, none, none⟩

/-- `HDFSContentsManager._read_notebook`.  The notebook-format
collaborator (`nbformat.reads`) is external; it is modelled as
carrying the decoded text, with any failure (in particular a UTF-8
decode failure) surfaced as the 400 the source raises. -/
def read_notebook (fs : FileSystem) (p q : List String) :
    Except MgrError String :=
  match permCheck fs p q with
  | some e => .error e
  | none =>
    match lookupFs fs q with
    | some (.file bcontent _) =>
      match utf8Decode bcontent with
      | some s => .ok s
      | none =>
        .error (.http 400 ("Unreadable Notebook: " ++ apiStr p))
    | _ => .error (.http 400 ("Unreadable Notebook: " ++ apiStr p))

/-- `HDFSContentsManager._notebook_model`.  `mark_trusted_cells` and
`validate_notebook_model` are external pass-through collaborators,
modelled as no-ops. -/
def notebook_model (cfg : Config) (fs : FileSystem) (p q : List String)
    (content : Bool) : Except MgrError Model :=
  match info_and_check_kind fs p q FsType.File with
  | .error e => .error e
  | .ok info =>
    let m := model_from_info cfg info (some "notebook")
    if content then
      match read_notebook fs p q with
      | .error e => .error e
      | .ok s => .ok ⟨m, .doc s, some "json", none⟩
    else .ok ⟨m, .nothing, none, none⟩

/-- `HDFSContentsManager.get`. -/
def get (cfg : Config) (fs : FileSystem) (p : List String)
    (content : Bool) (type : Option String) (format : Option String) :
    Except MgrError Model :=
  let q := resolve cfg p
  if !path_exist fs q then
    .error (.http 404 ("No such file or directory: " ++ apiStr p))
  else if !cfg.allowHidden && hiddenAt cfg q then
    .error (.http 404 ("No such file or directory: " ++ apiStr p))
  else
    let t :=
      match type with
      | some t => t
      | none => infer_type fs q
    if t = "directory" then dir_model cfg fs p q content
    else if t = "notebook" then notebook_model cfg fs p q content
    else file_model cfg fs p q content format

/-- `HDFSContentsManager._save_directory`.  Note the existence
pre-check is `self.exists(hdfs_path)`: the already-physical path is
re-converted as if it were an API path. -/
def save_directory (cfg : Config) (fs : FileSystem) (p q : List String)
    (now : Nat) : Except MgrError FileSystem :=
  if !cfg.allowHidden && hiddenAt cfg q then
    .error (.http 400 ("Cannot create hidden directory " ++ apiStr p))
  else if !existsApi cfg fs q then
    match permCheck fs p q with
    | some e => .error e
    | none =>
      match Hdfs.create_dir fs q now with
      | .ok fs' => .ok fs'
      | .error msg => .error (.backend msg)
  else if !is_dir fs q then
    .error (.http 400 ("Not a directory: " ++ apiStr p))
  else .ok fs

/-- `HDFSContentsManager._save_file`.  `format = model['format']` is
plain indexing: an absent key raises an uncaught `KeyError` before the
format guard; a present null or non-`text`/`base64` value fails the
guard with the 400. -/
def save_file (fs : FileSystem) (p q : List String) (content : String)
    (format : FormatField) (now : Nat) : Except MgrError FileSystem :=
  match format with
  | .absent => .error (.backend "KeyError: 'format'")
  | format =>
  if format ≠ .fmt "text" && format ≠ .fmt "base64" then
    .error (.http 400
      "Must specify format of file contents as 'text' or 'base64'")
  else
    let decoded : Except MgrError (List Nat) :=
      if format = .fmt "text" then .ok (utf8Encode content)
      else if !allAscii content then
        .error (.http 400 ("Encoding error saving " ++ apiStr p ++
          ": 'ascii' codec can't encode character"))
      else
        match decodebytes content with
        | some b => .ok b
        | none =>
          .error (.http 400 ("Encoding error saving " ++ apiStr p ++
            ": Invalid base64-encoded string"))
    match decoded with
    | .error e => .error e
    | .ok bcontent =>
      match permCheck fs p q with
      | some e => .error e
      | none =>
        match Hdfs.write_stream fs q bcontent now with
        | .ok fs' => .ok fs'
        | .error msg => .error (.backend msg)

/-- `HDFSContentsManager._save_notebook`.  `nbformat.from_dict`,
`check_and_sign`, `nbformat.writes` and `validate_notebook_model` are
external collaborators; serialization round-trips the opaque document
string. -/
def save_notebook (fs : FileSystem) (p q : List String)
    (content : String) (message : Option String) (now : Nat) :
    Except MgrError (FileSystem × Option String) :=
  let bcontent := utf8Encode content
  match permCheck fs p q with
  | some e => .error e
  | none =>
    match Hdfs.write_stream fs q bcontent now with
    | .ok fs' => .ok (fs', message)
    | .error msg => .error (.backend msg)

/-- `HDFSContentsManager.save`. -/
def save (cfg : Config) (fs : FileSystem) (model : InModel)
    (p : List String) (now : Nat) : Except MgrError (FileSystem × Model) :=
  match model.type with
  | none => .error (.http 400 "No file type provided")
  | some typ =>
    if model.content = none && typ != "directory" then
      .error (.http 400 "No file content provided")
    else
      match (if typ = "notebook" then
          save_notebook fs p (resolve cfg p) (model.content.getD "")
            model.message now
        else if typ = "file" then
          match save_file fs p (resolve cfg p) (model.content.getD "")
              model.format now with
          | .ok fs' => .ok (fs', none)
          | .error e => .error e
        else if typ = "directory" then
          match save_directory cfg fs p (resolve cfg p) now with
          | .ok fs' => .ok (fs', none)
          | .error e => .error e
        else .error (.http 400 ("Unhandled contents type: " ++ typ)) :
          Except MgrError (FileSystem × Option String)) with
      | .error e => .error e
      | .ok (fs', message) =>
        match get cfg fs' p false (some typ) none with
        | .error e => .error e
        | .ok m =>
          match message with
          | some s => .ok (fs', { m with message := some s })
          | none => .ok (fs', m)

/-- `HDFSContentsManager._is_dir_empty` emptiness computation (after
the permission-scoped listing): basenames minus the checkpoint child
name. -/
def dir_empty_excl_cp (fs : FileSystem) (q : List String)
    (cp : Option String) : Bool :=
  ((Hdfs.list_children fs q).map (fun i => i.path.getLastD "")).all
    (fun n => some n == cp)

/-- `HDFSContentsManager.delete_file`. -/
def delete_file (cfg : Config) (fs : FileSystem) (p : List String) :
    Except MgrError FileSystem :=
  let q := resolve cfg p
  if !path_exist fs q then
    .error (.http 404 ("File or directory does not exist: " ++ apiStr p))
  else if is_dir fs q then
    match permCheck fs p q with
    | some e => .error e
    | none =>
      if !dir_empty_excl_cp fs q cfg.checkpointDir then
        .error (.http 400 ("Directory " ++ apiStr p ++ " not empty"))
      else .ok (Hdfs.delete_dir fs q)
  else
    match permCheck fs p q with
    | some e => .error e
    | none => .ok (Hdfs.delete_file fs q)

/-- `HDFSContentsManager.rename_file`. -/
def rename_file (cfg : Config) (fs : FileSystem)
    (old_path new_path : List String) : Except MgrError FileSystem :=
  if old_path = new_path then .ok fs
  else
    let oq := resolve cfg old_path
    let nq := resolve cfg new_path
    if path_exist fs nq then
      .error (.http 409 ("File already exists: " ++ apiStr new_path))
    else
      match permCheck fs old_path oq with
      | some e => .error e
      | none =>
        match Hdfs.move fs oq nq with
        | .ok fs' => .ok fs'
        | .error msg =>
          .error (.http 500 ("Unknown error renaming file: " ++
            apiStr old_path ++ "\n" ++ msg))

end HCM

/-- Decidable equality of manager results, so witnesses can be checked
by `decide`. -/
instance exceptDecEq {E A : Type} [DecidableEq E] [DecidableEq A] :
    DecidableEq (Except E A) := fun x y =>
  match x, y with
  | .ok a, .ok b =>
    if h : a = b then .isTrue (by rw [h]) else .isFalse (by simp [h])
  | .error a, .error b =>
    if h : a = b then .isTrue (by rw [h]) else .isFalse (by simp [h])
  | .ok _, .error _ => .isFalse (by simp)
  | .error _, .ok _ => .isFalse (by simp)

/-- Modelled from the spec (`hdfscm.utils` is not in the sources):
`toPhysical` selects the physical root by the shared-marker prefix
test and concatenates it with the logical path. -/
def toPhysical (root shared p : List String) : List String :=
  to_fs_path p (get_prefix_from_fs_path p root shared)

/-- Modelled from the spec (`hdfscm.utils` is not in the sources):
`toLogical` strips whichever configured root directory is a prefix of
the physical path; `none` models the `ConfigurationError` raised when
neither matches. -/
def toLogical (root shared q : List String) : Option (List String) :=
  if shared.isPrefixOf q then some (q.drop shared.length)
  else if root.isPrefixOf q then some (q.drop root.length)
  else none

/-! ### Witness fixtures -/

/-- A standard configuration: private root `/user/alice/nb`, shared
root `/user/jupyter/nb`, hidden entries disallowed, permissive listing
policy, checkpoint child `.ipynb_checkpoints`. -/
def cfg0 : Config :=
  ⟨["user", "alice", "nb"], ["user", "jupyter", "nb"], false,
   fun _ => true, some ".ipynb_checkpoints"⟩

/-- Root chain of `cfg0`'s private root. -/
def rootChain : List (List String × FsNode) :=
  [(["user"], .dir 0), (["user", "alice"], .dir 0),
   (["user", "alice", "nb"], .dir 0)]

/-- A filesystem holding one UTF-8 text file `x.txt`. -/
def fsText : FileSystem :=
  ⟨rootChain ++ [(["user", "alice", "nb", "x.txt"], .file [104, 105] 7)],
   []⟩

/-- A filesystem whose only entry under the root is a *directory*
named `d.ipynb`. -/
def fsDirNb : FileSystem :=
  ⟨rootChain ++ [(["user", "alice", "nb", "d.ipynb"], .dir 3)], []⟩

/-- A filesystem whose only entry under the root is a directory
named `d`. -/
def fsDir : FileSystem :=
  ⟨rootChain ++ [(["user", "alice", "nb", "d"], .dir 3)], []⟩

/-- A filesystem holding `x.txt`, with all backend I/O on its physical
path permission-denied. -/
def fsPerm : FileSystem :=
  ⟨rootChain ++ [(["user", "alice", "nb", "x.txt"], .file [104, 105] 7)],
   [["user", "alice", "nb", "x.txt"]]⟩

/-- A filesystem with a directory `d` containing only the reserved
checkpoint child. -/
def fsCpOnly : FileSystem :=
  ⟨rootChain ++
    [(["user", "alice", "nb", "d"], .dir 2),
     (["user", "alice", "nb", "d", ".ipynb_checkpoints"], .dir 2)], []⟩

/-- A filesystem with a directory `d` containing the checkpoint child
and one ordinary entry. -/
def fsNonEmpty : FileSystem :=
  ⟨rootChain ++
    [(["user", "alice", "nb", "d"], .dir 2),
     (["user", "alice", "nb", "d", ".ipynb_checkpoints"], .dir 2),
     (["user", "alice", "nb", "d", "y.txt"], .file [104] 2)], []⟩

/-- A filesystem holding one hidden file `.h` under the root. -/
def fsHidden : FileSystem :=
  ⟨rootChain ++ [(["user", "alice", "nb", ".h"], .file [104] 7)], []⟩

/-- A property holding of every successful result of a fallible
operation (vacuously true of failures). -/
def exceptOk {E A : Type} (r : Except E A) (P : A → Prop) : Prop :=
  match r with
  | .ok a => P a
  | .error _ => True

/-- A model reports no separate creation time: `created` equals
`last_modified`, on the model itself and on every child of a directory
listing. -/
def timesOk (m : Model) : Prop :=
  m.info.created = m.info.last_modified ∧
    (match m.content with
     | .listing l => ∀ c ∈ l, c.created = c.last_modified
     | _ => True)

/-! ### C1 -/

/-- C1: for a file read with content requested (the backing entry is a
file and the read is not permission-denied): with no requested format
the bytes are UTF-8 decoded and tagged `text`, falling back to a
base64 encoding tagged `base64` when decoding fails; with requested
format `text` a decode failure raises the 400 `EncodingError`; with
any non-`text` requested format the read always succeeds with the
base64 encoding. -/
theorem read_file_decode_policy (fs : FileSystem) (p q : List String)
    (bytes : List Nat) (mt : Nat)
    (hf : lookupFs fs q = some (.file bytes mt))
    (hperm : q ∉ fs.permDenied) :
    (HCM.read_file fs p q none =
      match utf8Decode bytes with
      | some s => .ok (s, "text")
      | none => .ok (encodebytes bytes, "base64")) ∧
    (HCM.read_file fs p q (some "text") =
      match utf8Decode bytes with
      | some s => .ok (s, "text")
      | none => .error (.http 400 (apiStr p ++ " is not UTF-8 encoded"))) ∧
    (∀ f, f ≠ "text" →
      HCM.read_file fs p q (some f) =
        .ok (encodebytes bytes, "base64")) := by
  have hfile : HCM.is_file fs q = true := by
    simp [HCM.is_file, Hdfs.get_file_info, hf]
  have hpc : HCM.permCheck fs p q = none := by
    simp [HCM.permCheck, hperm]
  refine ⟨?_, ?_, ?_⟩
  · simp only [HCM.read_file, hfile, hpc, hf, Bool.not_true,
      Bool.false_eq_true, if_false]
    simp
  · simp only [HCM.read_file, hfile, hpc, hf, Bool.not_true,
      Bool.false_eq_true, if_false]
    simp
  · intro f hne
    simp only [HCM.read_file, hfile, hpc, hf, Bool.not_true,
      Bool.false_eq_true, if_false]
    simp [hne]

/-- Witness for C1 at a concrete input: a two-byte UTF-8 file read
with no format yields text `hi`; read with format `base64` yields its
base64 line. -/
theorem read_file_decode_policy_witness :
    HCM.read_file fsText ["x.txt"] ["user", "alice", "nb", "x.txt"]
        none = .ok ("hi", "text") ∧
    HCM.read_file fsText ["x.txt"] ["user", "alice", "nb", "x.txt"]
        (some "base64") = .ok ("aGk=\n", "base64") := by
  have h := read_file_decode_policy fsText ["x.txt"]
    ["user", "alice", "nb", "x.txt"] [104, 105] 7 (by decide)
    (by decide)
  have h2 := h.2.2 "base64" (by decide)
  refine ⟨?_, ?_⟩
  · rw [h.1]; rfl
  · rw [h2]; rfl

/-! ### C3 (corrected) -/

/-- Counterexample to C3 as stated: a `file` model whose `format` key
is *absent* has a format that is neither `text` nor `base64`, yet the
save does not fail with the 400 `BadRequestError`: the source's
`format = model['format']` raises an uncaught `KeyError` (a 500 at the
boundary) before the format guard runs. -/
theorem save_file_absent_format_counterexample :
    HCM.save cfg0 fsText ⟨some "file", some "bye", .absent, none⟩
        ["y.txt"] 9 = .error (.backend "KeyError: 'format'") ∧
    (∀ m, HCM.save cfg0 fsText ⟨some "file", some "bye", .absent, none⟩
        ["y.txt"] 9 ≠ .error (.http 400 m)) := by
  have h0 : HCM.save cfg0 fsText
      ⟨some "file", some "bye", .absent, none⟩ ["y.txt"] 9 =
      .error (.backend "KeyError: 'format'") := by decide
  refine ⟨h0, ?_⟩
  intro m h
  rw [h0] at h
  simp at h

/-- C3 (amended): saving a `file` model (to a writable,
non-permission-denied target): an absent `format` key raises an
uncaught `KeyError` before the guard; a format that is present but
neither `text` nor `base64` (including null) fails with the 400
`BadRequestError` before any write; format `text` writes the UTF-8
encoding of the content; format `base64` writes the base64-decoded
bytes, and fails with the 400 `EncodingError` — without writing — when
the content is not valid base64 (non-ASCII characters or a malformed
base64 string). -/
theorem save_file_spec (fs : FileSystem) (p q : List String)
    (content : String) (format : FormatField) (now : Nat)
    (hperm : q ∉ fs.permDenied) (hw : Hdfs.canWrite fs q = true) :
    (format = .absent →
      HCM.save_file fs p q content format now =
        .error (.backend "KeyError: 'format'")) ∧
    (format ≠ .absent → format ≠ .fmt "text" → format ≠ .fmt "base64" →
      HCM.save_file fs p q content format now =
        .error (.http 400
          "Must specify format of file contents as 'text' or 'base64'")) ∧
    (format = .fmt "text" →
      HCM.save_file fs p q content format now =
        .ok (Hdfs.doWrite fs q (utf8Encode content) now)) ∧
    (format = .fmt "base64" →
      (∀ b, decodebytes content = some b → allAscii content = true →
        HCM.save_file fs p q content format now =
          .ok (Hdfs.doWrite fs q b now)) ∧
      (decodebytes content = none → allAscii content = true →
        HCM.save_file fs p q content format now =
          .error (.http 400 ("Encoding error saving " ++ apiStr p ++
            ": Invalid base64-encoded string"))) ∧
      (allAscii content = false →
        HCM.save_file fs p q content format now =
          .error (.http 400 ("Encoding error saving " ++ apiStr p ++
            ": 'ascii' codec can't encode character")))) := by
  have hpc : HCM.permCheck fs p q = none := by
    simp [HCM.permCheck, hperm]
  refine ⟨?_, ?_, ?_, ?_⟩
  · intro h1
    subst h1
    simp [HCM.save_file]
  · intro h1 h2 h3
    cases format with
    | absent => exact absurd rfl h1
    | null => simp [HCM.save_file]
    | fmt f =>
      have hf2 : f ≠ "text" := by
        intro hh
        exact h2 (by rw [hh])
      have hf3 : f ≠ "base64" := by
        intro hh
        exact h3 (by rw [hh])
      simp [HCM.save_file, hf2, hf3]
  · intro h1
    subst h1
    simp [HCM.save_file, hpc, Hdfs.write_stream, hw]
  · intro h1
    subst h1
    refine ⟨?_, ?_, ?_⟩
    · intro b hb ha
      simp [HCM.save_file, hpc, Hdfs.write_stream, hw, hb, ha]
    · intro hb ha
      simp [HCM.save_file, hpc, hb, ha]
    · intro ha
      simp [HCM.save_file, hpc, ha]

/-- Witness for C3's amended statement at concrete inputs: format
`text` writes the UTF-8 bytes of `"bye"`; format `base64` on the
malformed input `"a"` fails with the encoding error; a present null
format fails with the 400 guard; an absent format key raises the
uncaught `KeyError`. -/
theorem save_file_spec_witness :
    HCM.save_file fsText ["y.txt"] ["user", "alice", "nb", "y.txt"]
        "bye" (.fmt "text") 9 =
      .ok (Hdfs.doWrite fsText ["user", "alice", "nb", "y.txt"]
        [98, 121, 101] 9) ∧
    HCM.save_file fsText ["y.txt"] ["user", "alice", "nb", "y.txt"]
        "a" (.fmt "base64") 9 =
      .error (.http 400
        "Encoding error saving y.txt: Invalid base64-encoded string") ∧
    HCM.save_file fsText ["y.txt"] ["user", "alice", "nb", "y.txt"]
        "bye" .null 9 =
      .error (.http 400
        "Must specify format of file contents as 'text' or 'base64'") ∧
    HCM.save_file fsText ["y.txt"] ["user", "alice", "nb", "y.txt"]
        "bye" .absent 9 = .error (.backend "KeyError: 'format'") := by
  have h1 := save_file_spec fsText ["y.txt"]
    ["user", "alice", "nb", "y.txt"] "bye" (.fmt "text") 9
    (by decide) (by decide)
  have h2 := save_file_spec fsText ["y.txt"]
    ["user", "alice", "nb", "y.txt"] "a" (.fmt "base64") 9
    (by decide) (by decide)
  have h3 := save_file_spec fsText ["y.txt"]
    ["user", "alice", "nb", "y.txt"] "bye" .null 9
    (by decide) (by decide)
  have h4 := save_file_spec fsText ["y.txt"]
    ["user", "alice", "nb", "y.txt"] "bye" .absent 9
    (by decide) (by decide)
  refine ⟨?_, ?_, ?_, ?_⟩
  · rw [h1.2.2.1 rfl]
    rfl
  · exact (h2.2.2.2 rfl).2.1 (by decide) (by decide)
  · exact h3.2.1 (by decide) (by decide) (by decide)
  · exact h4.1 rfl

/-! ### C8 -/

/-- Two prefixes of a common list are comparable; specialised to an
appended list. -/
theorem prefix_of_append_cases {α : Type} (L M P : List α)
    (h : L <+: M ++ P) : L <+: M ∨ M <+: L :=
  List.prefix_or_prefix_of_prefix h (List.prefix_append M P)

/-- C8: with the two configured roots disjoint and non-nested (neither
a prefix of the other), `toPhysical` resolves a logical path into the
shared root exactly when the path lies under the shared-namespace
marker segment and into the private root otherwise, and
`toLogical (toPhysical p) = p` for every logical path (round-trip
law). -/
theorem toPhysical_toLogical_roundtrip (root shared p : List String)
    (hrs : ¬ root <+: shared) (hsr : ¬ shared <+: root) :
    ((shared <+: toPhysical root shared p) ↔
      p.head? = some sharedMarker) ∧
    ((root <+: toPhysical root shared p) ↔
      ¬ p.head? = some sharedMarker) ∧
    toLogical root shared (toPhysical root shared p) = some p := by
  by_cases hp : p.head? = some sharedMarker
  · have htp : toPhysical root shared p = shared ++ p := by
      simp [toPhysical, to_fs_path, get_prefix_from_fs_path, hp]
    refine ⟨?_, ?_, ?_⟩
    · simp [htp, hp, List.prefix_append]
    · rw [htp]
      constructor
      · intro hpre
        rcases prefix_of_append_cases root shared p hpre with h | h
        · exact absurd h hrs
        · exact absurd h hsr
      · intro hcon
        exact absurd hp hcon
    · rw [htp, toLogical]
      have : shared.isPrefixOf (shared ++ p) = true :=
        List.isPrefixOf_iff_prefix.mpr (List.prefix_append shared p)
      rw [if_pos this, List.drop_left]
  · have htp : toPhysical root shared p = root ++ p := by
      simp [toPhysical, to_fs_path, get_prefix_from_fs_path, hp]
    have hnsh : ¬ shared <+: root ++ p := by
      intro hpre
      rcases prefix_of_append_cases shared root p hpre with h | h
      · exact absurd h hsr
      · exact absurd h hrs
    refine ⟨?_, ?_, ?_⟩
    · rw [htp]
      constructor
      · intro hpre
        exact absurd hpre hnsh
      · intro hcon
        exact absurd hcon hp
    · simp [htp, hp, List.prefix_append]
    · rw [htp, toLogical]
      have hs : shared.isPrefixOf (root ++ p) = false := by
        rw [Bool.eq_false_iff]
        intro hcon
        exact hnsh (List.isPrefixOf_iff_prefix.mp hcon)
      have hr : root.isPrefixOf (root ++ p) = true :=
        List.isPrefixOf_iff_prefix.mpr (List.prefix_append root p)
      rw [hs]
      simp [hr, List.drop_left]

/-- Witness for C8: with the concrete disjoint roots of `cfg0`, a
shared logical path resolves into the shared root and round-trips, and
a private one resolves into the private root and round-trips. -/
theorem toPhysical_toLogical_roundtrip_witness :
    (["user", "jupyter", "nb"] <+:
      toPhysical ["user", "alice", "nb"] ["user", "jupyter", "nb"]
        ["shared", "x"]) ∧
    toLogical ["user", "alice", "nb"] ["user", "jupyter", "nb"]
        (toPhysical ["user", "alice", "nb"] ["user", "jupyter", "nb"]
          ["shared", "x"]) = some ["shared", "x"] ∧
    (["user", "alice", "nb"] <+:
      toPhysical ["user", "alice", "nb"] ["user", "jupyter", "nb"]
        ["a"]) ∧
    toLogical ["user", "alice", "nb"] ["user", "jupyter", "nb"]
        (toPhysical ["user", "alice", "nb"] ["user", "jupyter", "nb"]
          ["a"]) = some ["a"] := by
  have hrs : ¬ ["user", "alice", "nb"] <+: ["user", "jupyter", "nb"] := by
    intro h
    have := List.isPrefixOf_iff_prefix.mpr h
    simp_all
  have hsr : ¬ ["user", "jupyter", "nb"] <+: ["user", "alice", "nb"] := by
    intro h
    have := List.isPrefixOf_iff_prefix.mpr h
    simp_all
  have h1 := toPhysical_toLogical_roundtrip ["user", "alice", "nb"]
    ["user", "jupyter", "nb"] ["shared", "x"] hrs hsr
  have h2 := toPhysical_toLogical_roundtrip ["user", "alice", "nb"]
    ["user", "jupyter", "nb"] ["a"] hrs hsr
  exact ⟨h1.1.mpr rfl, h1.2.2, h2.2.1.mpr (by decide), h2.2.2⟩

/-! ### C6 (code bug) -/

/-- C6 (code bug): saving a `directory` model onto a logical path
occupied by a file.  `_save_directory` pre-checks existence with
`self.exists(hdfs_path)`, handing the already-physical path to a
method that converts its argument as an API path; the doubly-mapped
path does not exist, so the dead `Not a directory` branch is skipped
and `create_dir` is invoked over the existing file, raising an
uncaught backend error instead of the intended 400
`NotADirectoryError`. -/
theorem save_directory_type_conflict_bug :
    HCM.save_directory cfg0 fsText ["x.txt"]
        (resolve cfg0 ["x.txt"]) 9 =
      .error (.backend "mkdir: a file occupies the path or an ancestor") ∧
    (∀ m, HCM.save_directory cfg0 fsText ["x.txt"]
        (resolve cfg0 ["x.txt"]) 9 ≠ .error (.http 400 m)) ∧
    HCM.existsApi cfg0 fsText (resolve cfg0 ["x.txt"]) = false ∧
    HCM.path_exist fsText (resolve cfg0 ["x.txt"]) = true := by
  have h0 : HCM.save_directory cfg0 fsText ["x.txt"]
      (resolve cfg0 ["x.txt"]) 9 =
      .error (.backend "mkdir: a file occupies the path or an ancestor") := by
    decide
  refine ⟨h0, ?_, by decide, by decide⟩
  intro m h
  rw [h0] at h
  simp at h

/-! ### C7 (corrected) -/

/-- Counterexample to C7 as stated: for an existing entry whose
backend type is directory but whose name ends in `.ipynb`, `get` with
no explicit type does *not* dispatch to directory model construction —
`infer_type` tests the suffix before the directory test, dispatches to
the notebook branch, and the request fails with a 400 type-mismatch
error. -/
theorem get_dir_ipynb_counterexample :
    HCM.get cfg0 fsDirNb ["d.ipynb"] false none none =
      .error (.http 400 "d.ipynb is not a FileType.File") ∧
    (∀ m, HCM.get cfg0 fsDirNb ["d.ipynb"] false none none ≠ .ok m) ∧
    (Hdfs.get_file_info fsDirNb (resolve cfg0 ["d.ipynb"])).type =
      FsType.Directory := by
  have h0 : HCM.get cfg0 fsDirNb ["d.ipynb"] false none none =
      .error (.http 400 "d.ipynb is not a FileType.File") := by decide
  refine ⟨h0, ?_, by decide⟩
  intro m h
  rw [h0] at h
  simp at h

/-- C7 (amended): for an existing, servable directory entry, `get`
with no explicit type dispatches to directory model construction —
returning type `directory` with null size — provided the entry's name
does not end in `.ipynb`; when the name ends in `.ipynb` the suffix
wins in `get`'s inference and the request fails with a 400; in
child-model inference (`_model_from_info`) the metadata type wins and
a directory is typed `directory` regardless of suffix. -/
theorem get_directory_dispatch (cfg : Config) (fs : FileSystem)
    (p : List String) (c : Bool) (f : Option String) (mt : Nat)
    (hd : lookupFs fs (resolve cfg p) = some (.dir mt))
    (hh : (!cfg.allowHidden && hiddenAt cfg (resolve cfg p)) = false)
    (hperm : resolve cfg p ∉ fs.permDenied) :
    (strEndsWith ((resolve cfg p).getLastD "") ".ipynb" = false →
      ∃ m, HCM.get cfg fs p c none f = .ok m ∧
        m.info.type = "directory" ∧ m.info.size = none) ∧
    (strEndsWith ((resolve cfg p).getLastD "") ".ipynb" = true →
      HCM.get cfg fs p c none f =
        .error (.http 400 (apiStr p ++ " is not a FileType.File"))) ∧
    (∀ info : FileInfo, info.type = FsType.Directory →
      (HCM.model_from_info cfg info none).type = "directory") := by
  have hinfo : Hdfs.get_file_info fs (resolve cfg p) =
      ⟨resolve cfg p, .Directory, none, mt⟩ := by
    simp [Hdfs.get_file_info, hd]
  have hpe : HCM.path_exist fs (resolve cfg p) = true := by
    simp [HCM.path_exist, hinfo]
  have hisdir : HCM.is_dir fs (resolve cfg p) = true := by
    simp [HCM.is_dir, hinfo]
  have hpc : HCM.permCheck fs p (resolve cfg p) = none := by
    simp [HCM.permCheck, hperm]
  have hkind : HCM.info_and_check_kind fs p (resolve cfg p)
      FsType.Directory = .ok ⟨resolve cfg p, .Directory, none, mt⟩ := by
    simp [HCM.info_and_check_kind, hinfo]
  have hmod : HCM.model_from_info cfg
      ⟨resolve cfg p, .Directory, none, mt⟩ (some "directory") =
      { name := (apiPathOf cfg (resolve cfg p)).getLastD ""
        path := apiPathOf cfg (resolve cfg p)
        last_modified := mt
        created := mt
        type := "directory"
        size := none
        mimetype := none
        writable := true } := by
    simp [HCM.model_from_info]
  refine ⟨?_, ?_, ?_⟩
  · intro hnb
    have hit : HCM.infer_type fs (resolve cfg p) = "directory" := by
      unfold HCM.infer_type
      rw [hnb, if_neg (by simp), hisdir, if_pos rfl]
    cases c with
    | false =>
      refine ⟨⟨HCM.model_from_info cfg
          ⟨resolve cfg p, .Directory, none, mt⟩ (some "directory"),
          .nothing, none, none⟩, ?_, ?_, ?_⟩
      · simp only [HCM.get, hpe, hh, Bool.not_true, if_false,
          Bool.false_eq_true, hit]
        simp [HCM.dir_model, hkind]
      · rw [hmod]
      · rw [hmod]
    | true =>
      refine ⟨⟨HCM.model_from_info cfg
          ⟨resolve cfg p, .Directory, none, mt⟩ (some "directory"),
          .listing (((Hdfs.list_children fs (resolve cfg p)).map
            (fun i => HCM.model_from_info cfg i none)).filter
              (fun c => cfg.shouldList c.name &&
                !strStartsWith c.name ".")),
          some "json", none⟩, ?_, ?_, ?_⟩
      · simp only [HCM.get, hpe, hh, Bool.not_true, if_false,
          Bool.false_eq_true, hit]
        simp [HCM.dir_model, hkind, hpc]
      · rw [hmod]
      · rw [hmod]
  · intro hnb
    have hit : HCM.infer_type fs (resolve cfg p) = "notebook" := by
      unfold HCM.infer_type
      rw [hnb, if_pos rfl]
    simp only [HCM.get, hpe, hh, Bool.not_true, if_false,
      Bool.false_eq_true, hit]
    simp [HCM.notebook_model, HCM.info_and_check_kind, hinfo]
    rw [String.append_assoc,
      show " is not a " ++ fsTypeStr FsType.File =
        " is not a FileType.File" from rfl]
  · intro info hty
    simp [HCM.model_from_info, hty]

/-- Witness for C7's amended statement: on a concrete directory `d`,
`get` returns a `directory` model with null size. -/
theorem get_directory_dispatch_witness :
    ∃ m, HCM.get cfg0 fsDir ["d"] false none none = .ok m ∧
      m.info.type = "directory" ∧ m.info.size = none := by
  have h := get_directory_dispatch cfg0 fsDir ["d"] false none 3
    (by decide) (by decide) (by decide)
  exact h.1 (by decide)

/-! ### C5 (corrected) -/

/-- Counterexample to C5 as stated: a backend *permission* failure
during the move is not wrapped as the generic 500 `RenameError`; the
403 raised by the `perm_to_403` scope is re-raised unchanged by the
`except HTTPError: raise` clause. -/
theorem rename_perm_counterexample :
    HCM.rename_file cfg0 fsPerm ["x.txt"] ["z.txt"] =
      .error (.http 403 "Permission denied: x.txt") ∧
    (∀ m, HCM.rename_file cfg0 fsPerm ["x.txt"] ["z.txt"] ≠
      .error (.http 500 m)) := by
  have h0 : HCM.rename_file cfg0 fsPerm ["x.txt"] ["z.txt"] =
      .error (.http 403 "Permission denied: x.txt") := by decide
  refine ⟨h0, ?_⟩
  intro m h
  rw [h0] at h
  simp at h

/-- C5 (amended): `rename(old, new)` is a no-op when the paths are
equal; fails with the 409 `AlreadyExistsError`, checked before the
move and leaving the filesystem untouched, when the destination
exists; a permission denial during the move surfaces as the uniform
403 forbidden outcome; and every other backend failure during the move
is wrapped as the generic 500 `RenameError` carrying the original
cause.  A successful move returns the moved filesystem. -/
theorem rename_file_spec (cfg : Config) (fs : FileSystem)
    (old_path new_path : List String) :
    (old_path = new_path →
      HCM.rename_file cfg fs old_path new_path = .ok fs) ∧
    (old_path ≠ new_path →
      HCM.path_exist fs (resolve cfg new_path) = true →
      HCM.rename_file cfg fs old_path new_path =
        .error (.http 409 ("File already exists: " ++ apiStr new_path))) ∧
    (old_path ≠ new_path →
      HCM.path_exist fs (resolve cfg new_path) = false →
      resolve cfg old_path ∈ fs.permDenied →
      HCM.rename_file cfg fs old_path new_path =
        .error (.http 403 ("Permission denied: " ++ apiStr old_path))) ∧
    (old_path ≠ new_path →
      HCM.path_exist fs (resolve cfg new_path) = false →
      resolve cfg old_path ∉ fs.permDenied →
      (∀ msg, Hdfs.move fs (resolve cfg old_path)
          (resolve cfg new_path) = .error msg →
        HCM.rename_file cfg fs old_path new_path =
          .error (.http 500 ("Unknown error renaming file: " ++
            apiStr old_path ++ "\n" ++ msg))) ∧
      (∀ fs', Hdfs.move fs (resolve cfg old_path)
          (resolve cfg new_path) = .ok fs' →
        HCM.rename_file cfg fs old_path new_path = .ok fs')) := by
  refine ⟨?_, ?_, ?_, ?_⟩
  · intro h
    simp [HCM.rename_file, h]
  · intro hne hex
    simp [HCM.rename_file, hne, hex]
  · intro hne hex hperm
    simp [HCM.rename_file, hne, hex, HCM.permCheck, hperm]
  · intro hne hex hperm
    have hpc : HCM.permCheck fs old_path (resolve cfg old_path) = none := by
      simp [HCM.permCheck, hperm]
    constructor
    · intro msg hmv
      simp [HCM.rename_file, hne, hex, hpc, hmv]
    · intro fs' hmv
      simp [HCM.rename_file, hne, hex, hpc, hmv]

/-- Witness for C5's amended statement at concrete inputs: the no-op,
the 409 on an existing destination, and the 500 wrap when the backend
move fails (missing source). -/
theorem rename_file_spec_witness :
    HCM.rename_file cfg0 fsText ["x.txt"] ["x.txt"] = .ok fsText ∧
    HCM.rename_file cfg0 fsText ["a"] ["x.txt"] =
      .error (.http 409 "File already exists: x.txt") ∧
    HCM.rename_file cfg0 fsText ["zz"] ["z.txt"] =
      .error (.http 500
        "Unknown error renaming file: zz\nmove: source does not exist") := by
  have h1 := (rename_file_spec cfg0 fsText ["x.txt"] ["x.txt"]).1 rfl
  have h2 := (rename_file_spec cfg0 fsText ["a"] ["x.txt"]).2.1
    (by decide) (by decide)
  have h3 := ((rename_file_spec cfg0 fsText ["zz"] ["z.txt"]).2.2.2
    (by decide) (by decide) (by decide)).1
    "move: source does not exist" (by decide)
  exact ⟨h1, h2, h3⟩

/-! ### C9 (corrected) -/

/-- Counterexample to C9 as stated: a model whose `type` is unknown
*and* whose `content` key is absent fails with the earlier 400
`No file content provided`, not with `Unhandled contents type`. -/
theorem save_unknown_type_counterexample :
    HCM.save cfg0 fsText ⟨some "weird", none, .absent, none⟩ ["y.txt"] 9 =
      .error (.http 400 "No file content provided") ∧
    HCM.save cfg0 fsText ⟨some "weird", none, .absent, none⟩ ["y.txt"] 9 ≠
      .error (.http 400 "Unhandled contents type: weird") := by
  have h0 : HCM.save cfg0 fsText ⟨some "weird", none, .absent, none⟩
      ["y.txt"] 9 = .error (.http 400 "No file content provided") := by
    decide
  refine ⟨h0, ?_⟩
  intro h
  rw [h0] at h
  simp at h

/-- C9 (amended): for every model whose `type` is present but none of
`notebook`/`file`/`directory`, `save` fails with a 400 bad-request
error and performs no backend write: with `Unhandled contents type`
when content is present, and with the earlier `No file content
provided` when the content key is absent. -/
theorem save_unknown_type_spec (cfg : Config) (fs : FileSystem)
    (model : InModel) (p : List String) (now : Nat) (t : String)
    (ht : model.type = some t) (h1 : t ≠ "notebook") (h2 : t ≠ "file")
    (h3 : t ≠ "directory") :
    (model.content = none →
      HCM.save cfg fs model p now =
        .error (.http 400 "No file content provided")) ∧
    (∀ c, model.content = some c →
      HCM.save cfg fs model p now =
        .error (.http 400 ("Unhandled contents type: " ++ t))) := by
  constructor
  · intro hc
    simp [HCM.save, ht, hc, h3]
  · intro c hc
    simp [HCM.save, ht, hc, h1, h2, h3]

/-- Witness for C9's amended statement: an unknown type with content
present fails with `Unhandled contents type`. -/
theorem save_unknown_type_spec_witness :
    HCM.save cfg0 fsText ⟨some "weird", some "c", .absent, none⟩
        ["y.txt"] 9 =
      .error (.http 400 "Unhandled contents type: weird") := by
  exact (save_unknown_type_spec cfg0 fsText
    ⟨some "weird", some "c", .absent, none⟩ ["y.txt"] 9 "weird" rfl
    (by decide) (by decide) (by decide)).2 "c" rfl

/-! ### C4 -/

/-- C4: `delete` (not permission-denied): a missing path fails with
the 404 `NotFoundError`; a directory fails with the 400
`DirectoryNotEmptyError` exactly when some child remains after
excluding the reserved checkpoint child name, and is deleted
otherwise (so a directory holding only the checkpoint child is
deletable); a file is deleted unconditionally. -/
theorem delete_file_spec (cfg : Config) (fs : FileSystem)
    (p : List String) (hperm : resolve cfg p ∉ fs.permDenied) :
    (HCM.path_exist fs (resolve cfg p) = false →
      HCM.delete_file cfg fs p =
        .error (.http 404
          ("File or directory does not exist: " ++ apiStr p))) ∧
    (HCM.is_dir fs (resolve cfg p) = true →
      (HCM.dir_empty_excl_cp fs (resolve cfg p) cfg.checkpointDir = false ↔
        HCM.delete_file cfg fs p =
          .error (.http 400 ("Directory " ++ apiStr p ++ " not empty"))) ∧
      (HCM.dir_empty_excl_cp fs (resolve cfg p) cfg.checkpointDir = true →
        HCM.delete_file cfg fs p =
          .ok (Hdfs.delete_dir fs (resolve cfg p)))) ∧
    (HCM.is_file fs (resolve cfg p) = true →
      HCM.delete_file cfg fs p =
        .ok (Hdfs.delete_file fs (resolve cfg p))) := by
  have hpc : HCM.permCheck fs p (resolve cfg p) = none := by
    simp [HCM.permCheck, hperm]
  refine ⟨?_, ?_, ?_⟩
  · intro hpe
    simp [HCM.delete_file, hpe]
  · intro hd
    have hty : (Hdfs.get_file_info fs (resolve cfg p)).type =
        FsType.Directory := by
      simpa [HCM.is_dir] using hd
    have hpe : HCM.path_exist fs (resolve cfg p) = true := by
      simp [HCM.path_exist, hty]
    constructor
    · cases hemp : HCM.dir_empty_excl_cp fs (resolve cfg p)
          cfg.checkpointDir with
      | false =>
        constructor
        · intro _
          simp [HCM.delete_file, hpe, hd, hpc, hemp]
        · intro _
          rfl
      | true =>
        constructor
        · intro hcon
          exact absurd hcon (by simp)
        · intro hcon
          rw [show HCM.delete_file cfg fs p =
              .ok (Hdfs.delete_dir fs (resolve cfg p)) by
            simp [HCM.delete_file, hpe, hd, hpc, hemp]] at hcon
          simp at hcon
    · intro hemp
      simp [HCM.delete_file, hpe, hd, hpc, hemp]
  · intro hf
    have hty : (Hdfs.get_file_info fs (resolve cfg p)).type =
        FsType.File := by
      simpa [HCM.is_file] using hf
    have hpe : HCM.path_exist fs (resolve cfg p) = true := by
      simp [HCM.path_exist, hty]
    have hd : HCM.is_dir fs (resolve cfg p) = false := by
      simp [HCM.is_dir, hty]
    simp [HCM.delete_file, hpe, hd, hpc]

/-- Witness for C4 at concrete inputs: deleting a directory whose only
child is the reserved checkpoint name succeeds; deleting one with an
ordinary child fails with the 400; deleting a missing path fails with
the 404; deleting a file succeeds. -/
theorem delete_file_spec_witness :
    HCM.delete_file cfg0 fsCpOnly ["d"] =
      .ok (Hdfs.delete_dir fsCpOnly ["user", "alice", "nb", "d"]) ∧
    HCM.delete_file cfg0 fsNonEmpty ["d"] =
      .error (.http 400 "Directory d not empty") ∧
    HCM.delete_file cfg0 fsText ["nope"] =
      .error (.http 404 "File or directory does not exist: nope") ∧
    HCM.delete_file cfg0 fsText ["x.txt"] =
      .ok (Hdfs.delete_file fsText ["user", "alice", "nb", "x.txt"]) := by
  refine ⟨?_, ?_, ?_, ?_⟩
  · exact ((delete_file_spec cfg0 fsCpOnly ["d"] (by decide)).2.1
      (by decide)).2 (by decide)
  · exact ((delete_file_spec cfg0 fsNonEmpty ["d"] (by decide)).2.1
      (by decide)).1.mp (by decide)
  · exact (delete_file_spec cfg0 fsText ["nope"] (by decide)).1
      (by decide)
  · exact (delete_file_spec cfg0 fsText ["x.txt"] (by decide)).2.2
      (by decide)

/-! ### C10 -/

/-- Every model built by `_model_from_info` carries the backend mtime
in both timestamp fields. -/
theorem model_from_info_times (cfg : Config) (info : FileInfo)
    (ty : Option String) :
    (HCM.model_from_info cfg info ty).created = info.mtime ∧
    (HCM.model_from_info cfg info ty).last_modified = info.mtime := by
  simp [HCM.model_from_info]

/-- Every result of `_dir_model` satisfies `timesOk`. -/
theorem dir_model_timesOk (cfg : Config) (fs : FileSystem)
    (p q : List String) (c : Bool) :
    exceptOk (HCM.dir_model cfg fs p q c) timesOk := by
  unfold exceptOk HCM.dir_model
  cases hk : HCM.info_and_check_kind fs p q FsType.Directory with
  | error e => simp
  | ok info =>
    cases c with
    | false => simp [timesOk, HCM.model_from_info]
    | true =>
      cases hp : HCM.permCheck fs p q with
      | some e => simp
      | none =>
        simp only [timesOk]
        refine ⟨by simp [HCM.model_from_info], ?_⟩
        simp only []
        intro cm hcm
        have hcm' := List.of_mem_filter hcm
        have hcm'' := List.mem_of_mem_filter hcm
        rcases List.mem_map.mp hcm'' with ⟨i, _, rfl⟩
        simp [HCM.model_from_info]

/-- Every result of `_file_model` satisfies `timesOk`. -/
theorem file_model_timesOk (cfg : Config) (fs : FileSystem)
    (p q : List String) (c : Bool) (f : Option String) :
    exceptOk (HCM.file_model cfg fs p q c f) timesOk := by
  unfold exceptOk HCM.file_model
  cases hk : HCM.info_and_check_kind fs p q FsType.File with
  | error e => simp
  | ok info =>
    cases c with
    | false => simp [timesOk, HCM.model_from_info]
    | true =>
      cases hr : HCM.read_file fs p q f with
      | error e => simp
      | ok cf =>
        cases cf with
        | mk cc ff => simp [timesOk, HCM.model_from_info]

/-- Every result of `_notebook_model` satisfies `timesOk`. -/
theorem notebook_model_timesOk (cfg : Config) (fs : FileSystem)
    (p q : List String) (c : Bool) :
    exceptOk (HCM.notebook_model cfg fs p q c) timesOk := by
  unfold exceptOk HCM.notebook_model
  cases hk : HCM.info_and_check_kind fs p q FsType.File with
  | error e => simp
  | ok info =>
    cases c with
    | false => simp [timesOk, HCM.model_from_info]
    | true =>
      cases hr : HCM.read_notebook fs p q with
      | error e => simp
      | ok s => simp [timesOk, HCM.model_from_info]

/-- Every model returned by `get` satisfies `timesOk`. -/
theorem get_timesOk (cfg : Config) (fs : FileSystem) (p : List String)
    (c : Bool) (t f : Option String) :
    exceptOk (HCM.get cfg fs p c t f) timesOk := by
  unfold HCM.get
  by_cases h1 : HCM.path_exist fs (resolve cfg p) = true
  · simp only [h1, Bool.not_true, Bool.false_eq_true, if_false]
    by_cases h2 : (!cfg.allowHidden && hiddenAt cfg (resolve cfg p)) = true
    · simp only [h2, if_true]
      trivial
    · simp only [h2, if_false]
      set ty := (match t with
        | some t => t
        | none => HCM.infer_type fs (resolve cfg p)) with hty
      by_cases h3 : ty = "directory"
      · simp only [h3, if_true]
        exact dir_model_timesOk cfg fs p (resolve cfg p) c
      · simp only [h3, if_false]
        by_cases h4 : ty = "notebook"
        · simp only [h4, if_true]
          exact notebook_model_timesOk cfg fs p (resolve cfg p) c
        · simp only [h4, if_false]
          exact file_model_timesOk cfg fs p (resolve cfg p) c f
  · have h1' : HCM.path_exist fs (resolve cfg p) = false := by
      revert h1
      cases HCM.path_exist fs (resolve cfg p) <;> simp
    simp only [h1', Bool.not_false, if_true]
    trivial

/-- C10: in every content model produced from backend metadata — by
`_model_from_info` itself, by `get` (including each child of a
directory listing), and by the post-save re-read returned by `save` —
the `created` field equals the `last_modified` field: both carry the
backend's modification timestamp and no separate creation time is ever
reported. -/
theorem created_equals_last_modified (cfg : Config) (fs : FileSystem)
    (p : List String) (c : Bool) (t f : Option String) (model : InModel)
    (now : Nat) :
    (∀ (info : FileInfo) (ty : Option String),
      (HCM.model_from_info cfg info ty).created =
        (HCM.model_from_info cfg info ty).last_modified) ∧
    exceptOk (HCM.get cfg fs p c t f) timesOk ∧
    exceptOk (HCM.save cfg fs model p now) (fun r => timesOk r.2) := by
  refine ⟨?_, get_timesOk cfg fs p c t f, ?_⟩
  · intro info ty
    simp [HCM.model_from_info]
  · unfold HCM.save
    split
    · trivial
    next typ htyp =>
      split
      · trivial
      next hguard =>
        split
        · trivial
        next fs' message heq =>
          split
          · trivial
          next m hget =>
            have hg := get_timesOk cfg fs' p false (some typ) none
            rw [hget] at hg
            cases message with
            | none => exact hg
            | some s => exact hg

/-! ### C2 -/

/-- `permCheck` failures carry status 403. -/
theorem permCheck_status (fs : FileSystem) (p q : List String)
    (e : MgrError) (hp : HCM.permCheck fs p q = some e) :
    e = .http 403 ("Permission denied: " ++ apiStr p) := by
  unfold HCM.permCheck at hp
  split at hp
  · exact (Option.some.inj hp).symm
  · exact absurd hp (by simp)

/-- On an existing path, `_info_and_check_kind` never fails with a
404. -/
theorem info_check_not404 (fs : FileSystem) (p q : List String)
    (k : FsType) (msg : String) (hpe : HCM.path_exist fs q = true) :
    HCM.info_and_check_kind fs p q k ≠ .error (.http 404 msg) := by
  intro h
  unfold HCM.info_and_check_kind at h
  by_cases hnf : (Hdfs.get_file_info fs q).type = FsType.NotFound
  · simp [HCM.path_exist, hnf] at hpe
  · rw [if_neg hnf] at h
    split at h
    · simp at h
    · simp at h

/-- `_read_file` never fails with a 404. -/
theorem read_file_not404 (fs : FileSystem) (p q : List String)
    (f : Option String) (msg : String) :
    HCM.read_file fs p q f ≠ .error (.http 404 msg) := by
  intro h
  unfold HCM.read_file at h
  split at h
  · simp at h
  · cases hp : HCM.permCheck fs p q with
    | some e =>
      rw [hp] at h
      simp only [Except.error.injEq] at h
      rw [permCheck_status fs p q e hp] at h
      simp at h
    | none =>
      rw [hp] at h
      cases hl : lookupFs fs q with
      | none =>
        rw [hl] at h
        simp at h
      | some node =>
        cases node with
        | dir m =>
          rw [hl] at h
          simp at h
        | file b m =>
          rw [hl] at h
          dsimp only at h
          by_cases h1 : f = none
          · rw [if_pos h1] at h
            cases hd : utf8Decode b <;> rw [hd] at h <;> simp at h
          · rw [if_neg h1] at h
            by_cases h2 : f = some "text"
            · rw [if_pos h2] at h
              cases hd : utf8Decode b <;> rw [hd] at h <;> simp at h
            · rw [if_neg h2] at h
              simp at h

/-- `_read_notebook` never fails with a 404. -/
theorem read_notebook_not404 (fs : FileSystem) (p q : List String)
    (msg : String) :
    HCM.read_notebook fs p q ≠ .error (.http 404 msg) := by
  intro h
  unfold HCM.read_notebook at h
  cases hp : HCM.permCheck fs p q with
  | some e =>
    rw [hp] at h
    simp only [Except.error.injEq] at h
    rw [permCheck_status fs p q e hp] at h
    simp at h
  | none =>
    rw [hp] at h
    cases hl : lookupFs fs q with
    | none =>
      rw [hl] at h
      simp at h
    | some node =>
      cases node with
      | dir m =>
        rw [hl] at h
        simp at h
      | file b m =>
        rw [hl] at h
        dsimp only at h
        cases hd : utf8Decode b <;> rw [hd] at h <;> simp at h

/-- On an existing path, `_dir_model` never fails with a 404. -/
theorem dir_model_not404 (cfg : Config) (fs : FileSystem)
    (p q : List String) (c : Bool) (msg : String)
    (hpe : HCM.path_exist fs q = true) :
    HCM.dir_model cfg fs p q c ≠ .error (.http 404 msg) := by
  intro h
  unfold HCM.dir_model at h
  cases hk : HCM.info_and_check_kind fs p q FsType.Directory with
  | error e =>
    rw [hk] at h
    simp only [Except.error.injEq] at h
    rw [h] at hk
    exact info_check_not404 fs p q FsType.Directory msg hpe hk
  | ok info =>
    rw [hk] at h
    cases c with
    | false => simp at h
    | true =>
      cases hp : HCM.permCheck fs p q with
      | some e =>
        rw [hp] at h
        simp only [Except.error.injEq] at h
        rw [permCheck_status fs p q e hp] at h
        simp at h
      | none =>
        rw [hp] at h
        simp at h

/-- On an existing path, `_file_model` never fails with a 404. -/
theorem file_model_not404 (cfg : Config) (fs : FileSystem)
    (p q : List String) (c : Bool) (f : Option String) (msg : String)
    (hpe : HCM.path_exist fs q = true) :
    HCM.file_model cfg fs p q c f ≠ .error (.http 404 msg) := by
  intro h
  unfold HCM.file_model at h
  cases hk : HCM.info_and_check_kind fs p q FsType.File with
  | error e =>
    rw [hk] at h
    simp only [Except.error.injEq] at h
    rw [h] at hk
    exact info_check_not404 fs p q FsType.File msg hpe hk
  | ok info =>
    rw [hk] at h
    cases c with
    | false => simp at h
    | true =>
      cases hr : HCM.read_file fs p q f with
      | error e =>
        rw [hr] at h
        simp at h
        rw [h] at hr
        exact read_file_not404 fs p q f msg hr
      | ok cf =>
        rcases cf with ⟨cc, ff⟩
        rw [hr] at h
        simp at h

/-- On an existing path, `_notebook_model` never fails with a 404. -/
theorem notebook_model_not404 (cfg : Config) (fs : FileSystem)
    (p q : List String) (c : Bool) (msg : String)
    (hpe : HCM.path_exist fs q = true) :
    HCM.notebook_model cfg fs p q c ≠ .error (.http 404 msg) := by
  intro h
  unfold HCM.notebook_model at h
  cases hk : HCM.info_and_check_kind fs p q FsType.File with
  | error e =>
    rw [hk] at h
    simp only [Except.error.injEq] at h
    rw [h] at hk
    exact info_check_not404 fs p q FsType.File msg hpe hk
  | ok info =>
    rw [hk] at h
    cases c with
    | false => simp at h
    | true =>
      cases hr : HCM.read_notebook fs p q with
      | error e =>
        rw [hr] at h
        simp at h
        rw [h] at hr
        exact read_notebook_not404 fs p q msg hr
      | ok s =>
        rw [hr] at h
        simp at h

/-- C2: `get` fails with the 404 `NotFoundError` if and only if the
resolved physical path does not exist, or the path is hidden while
serving hidden entries is disallowed by configuration; otherwise `get`
proceeds to build a model (any later failure carries a different
status). -/
theorem get_notfound_iff (cfg : Config) (fs : FileSystem)
    (p : List String) (c : Bool) (t f : Option String) :
    (∃ msg, HCM.get cfg fs p c t f = .error (.http 404 msg)) ↔
      (HCM.path_exist fs (resolve cfg p) = false ∨
        (cfg.allowHidden = false ∧
          hiddenAt cfg (resolve cfg p) = true)) := by
  constructor
  · rintro ⟨msg, h⟩
    by_cases h1 : HCM.path_exist fs (resolve cfg p) = true
    · right
      by_cases h2 : (!cfg.allowHidden && hiddenAt cfg (resolve cfg p)) = true
      · rcases Bool.and_eq_true_iff.mp h2 with ⟨ha, hb⟩
        exact ⟨by simpa using ha, hb⟩
      · exfalso
        simp only [HCM.get] at h
        rw [h1] at h
        simp only [Bool.not_true, Bool.false_eq_true, if_false] at h
        rw [if_neg (by simp_all)] at h
        split at h
        · exact dir_model_not404 cfg fs p (resolve cfg p) c msg h1 h
        · split at h
          · exact notebook_model_not404 cfg fs p (resolve cfg p) c msg
              h1 h
          · exact file_model_not404 cfg fs p (resolve cfg p) c f msg
              h1 h
    · left
      revert h1
      cases HCM.path_exist fs (resolve cfg p) <;> simp
  · intro hor
    refine ⟨"No such file or directory: " ++ apiStr p, ?_⟩
    rcases hor with h1 | ⟨ha, hb⟩
    · simp only [HCM.get]
      rw [h1]
      simp
    · simp only [HCM.get]
      by_cases h1 : HCM.path_exist fs (resolve cfg p) = true
      · rw [h1]
        simp [ha, hb]
      · have h1' : HCM.path_exist fs (resolve cfg p) = false := by
          revert h1
          cases HCM.path_exist fs (resolve cfg p) <;> simp
        rw [h1']
        simp

/-- Witness for C2 on concrete states: a missing path and a disallowed
hidden path both yield the 404; an existing plain file does not. -/
theorem get_notfound_iff_witness :
    (∃ msg, HCM.get cfg0 fsText ["nope"] true none none =
      .error (.http 404 msg)) ∧
    (∃ msg, HCM.get cfg0 fsHidden [".h"] false none none =
      .error (.http 404 msg)) ∧
    ¬ (∃ msg, HCM.get cfg0 fsText ["x.txt"] false none none =
      .error (.http 404 msg)) := by
  refine ⟨?_, ?_, ?_⟩
  · exact (get_notfound_iff cfg0 fsText ["nope"] true none none).mpr
      (Or.inl (by decide))
  · exact (get_notfound_iff cfg0 fsHidden [".h"] false none none).mpr
      (Or.inr (by decide))
  · intro hcon
    rcases (get_notfound_iff cfg0 fsText ["x.txt"] false none
        none).mp hcon with h | h
    · exact absurd h (by decide)
    · exact absurd h.2 (by decide)
